import Mathlib

/-!
Verification of the FF3V-Factor-Model panel-construction pipeline.

This file gives a shallow embedding, in Lean 4, of the data transformations of
the repository (`create_database/crsp.py`, `create_database/compustat.py`,
`create_database/_utils.py`, `src/fama_macbeth.py`) and proves or refutes the
specified properties of those transformations.

Modelling conventions:
* pandas `NaN` / SQL `NULL` is `Option.none`; numeric columns are `ℚ`
  (the float arithmetic of the source is idealised as exact rationals);
* a pandas data frame is a `List` of row structures, in frame order;
* a multi-column `sort_values` (pandas sorts by several keys with a stable
  lexicographic sort) is modelled by the stable `List.insertionSort`; the
  single-column `sort_values("datadate")` uses the default unstable
  quicksort, so it is modelled nondeterministically, as an arbitrary
  permutation of the frame that is non-decreasing in the key;
* a pandas merge attaches, for each left row, every matching right row in
  right-frame order (duplicating the left row when several match), and a
  single row with a null payload when none matches;
* `np.log` is strictly monotone (hence injective) on positive reals and is
  applied last in the source, so columns `log_mktcap` / `log_bm` are tracked
  by the exact argument the source passes to `np.log`; definedness and
  which-value-feeds-the-logarithm are unaffected by this;
* `.std()` (sample standard deviation, `ddof = 1`) is the square root of the
  sample variance; the square root is likewise injective on nonnegatives, so
  the rolling volatility is tracked at the sample-variance level.
-/

/-! ### Calendar dates (`create_database/_utils.py::convert_to_datetime`) -/

/-- A calendar date as produced by Python `datetime.strptime(s, "%Y-%m-%d")`:
year, month, day.  Python compares `datetime` objects lexicographically. -/
structure PyDate where
  y : Nat
  m : Nat
  d : Nat
  deriving DecidableEq, Repr

/-- Lexicographic strict order on dates, as Python `<` on `datetime`. -/
def PyDate.ltb (a b : PyDate) : Bool :=
  a.y < b.y || (a.y == b.y && (a.m < b.m || (a.m == b.m && a.d < b.d)))

/-- Gregorian leap year, as `datetime` uses. -/
def leapYear (y : Nat) : Bool :=
  (y % 4 == 0 && y % 100 != 0) || y % 400 == 0

/-- Number of days of month `m` of year `y`, as `datetime` validates. -/
def daysInMonth (y m : Nat) : Nat :=
  if m == 2 then (if leapYear y then 29 else 28)
  else if m == 4 || m == 6 || m == 9 || m == 11 then 30
  else 31

/-- Value of a list of decimal digit characters. -/
def digitsToNat (cs : List Char) : Nat :=
  cs.foldl (fun a c => 10 * a + (c.toNat - 48)) 0

/-- One `strptime` field: a run of at least `minLen` and at most `maxLen`
digits, as the corresponding CPython `_strptime` regex demands. -/
def parseField (cs : List Char) (minLen maxLen : Nat) : Option Nat :=
  if minLen ≤ cs.length && cs.length ≤ maxLen && cs.all Char.isDigit then
    some (digitsToNat cs)
  else none

/-- Model of `datetime.strptime(s, "%Y-%m-%d")`: three dash-separated digit
fields matching the CPython `_strptime` regexes — `%Y` exactly four digits,
`%m` and `%d` one or two digits — with the resulting values validated by the
`datetime` constructor (year at least `0001`, month `1`-`12`, day valid for
the month, leap years included); anything else fails. -/
def parseYMD (s : List Char) : Option PyDate :=
  match s.splitOn '-' with
  | [ys, ms, ds] =>
    match parseField ys 4 4, parseField ms 1 2, parseField ds 1 2 with
    | some yv, some mv, some dv =>
      if 1 ≤ yv && 1 ≤ mv && mv ≤ 12 && 1 ≤ dv && dv ≤ daysInMonth yv mv then
        some ⟨yv, mv, dv⟩
      else none
    | _, _, _ => none
  | _ => none

/-- The possible runtime types of a date argument in the source: an actual
`datetime`, a string, or anything else. -/
inductive DateInput where
  | dt (date : PyDate)
  | str (s : List Char)
  | other
  deriving DecidableEq, Repr

/-- A raised Python error: `ValueError` or `TypeError` with its message. -/
inductive PyError where
  | valueError (msg : String)
  | typeError (msg : String)
  deriving DecidableEq, Repr

/-- `create_database/_utils.py::convert_to_datetime`: a `datetime` is returned
as is; a string is parsed as `YYYY-MM-DD`, raising `ValueError` naming the
parameter on failure; any other type raises `TypeError` naming the parameter. -/
def convert_to_datetime (v : DateInput) (param : String) : Except PyError PyDate :=
  match v with
  | .dt date => .ok date
  | .str s =>
    match parseYMD s with
    | some date => .ok date
    | none => .error (.valueError ("Invalid " ++ param ++ " format. Use YYYY-MM-DD."))
  | .other =>
    .error (.typeError (param ++ " must be either a datetime object or a string in YYYY-MM-DD format."))

/-- The date-range validation performed identically by `Compustat.set_data`
(`compustat.py` lines 77-80) and `CRSP.set_raw_data` (`crsp.py` lines 105-111):
convert both inputs, then fail when the final date is earlier than the start
date; otherwise both dates pass through unchanged. -/
def set_data_validate (start_date final_date : DateInput) : Except PyError (PyDate × PyDate) := do
  let s ← convert_to_datetime start_date "start_date"
  let f ← convert_to_datetime final_date "final_date"
  if PyDate.ltb f s then
    .error (.valueError "final_date cannot be earlier than start_date.")
  else
    .ok (s, f)

/-! ### Write operations (C8) -/

/-- `Compustat.write_to_sql` (`compustat.py` lines 150-164): raises an explicit
no-data `ValueError` when the frame is `None` or empty, otherwise writes it. -/
def compustat_write_to_sql {α : Type} (df : Option (List α)) : Except PyError (List α) :=
  match df with
  | none => .error (.valueError "No data available to write to SQL. Ensure that set_data has been executed.")
  | some l =>
    if l.isEmpty then
      .error (.valueError "No data available to write to SQL. Ensure that set_data has been executed.")
    else .ok l

/-- `CRSP.write_to_sql` (`crsp.py` lines 239-243): calls `self.df.to_sql`
directly with no emptiness check.  An empty frame is written as an empty
table; a `None` frame crashes with `AttributeError` (modelled as a
`TypeError`-style error that is not the explicit no-data message). -/
def crsp_write_to_sql {α : Type} (df : Option (List α)) : Except PyError (List α) :=
  match df with
  | none => .error (.typeError "NoneType object has no attribute to_sql")
  | some l => .ok l

/-! ### Momentum (`CRSP.create_momentum_column`, `crsp.py` lines 155-168) -/

/-- `compute_momentum` applied to one security's excess returns after
`sort_values(['permno', 'date'])`: position `i` is `NaN` for `i < 12` and
otherwise `np.prod(1 + ret[i-12 : i-1]) - 1`, the slice being the eleven
entries at positions `i-12` through `i-2`. -/
def compute_momentum (rets : List ℚ) : List (Option ℚ) :=
  (List.range rets.length).map (fun i =>
    if i < 12 then none
    else some ((((rets.drop (i - 12)).take 11).foldl (fun a r => a * (1 + r)) 1) - 1))

/-! ### Volatility (`CRSP.create_volatility_column`, `crsp.py` lines 185-237) -/

/-- Daily excess return (`crsp.py` line 216): the daily factor frame is merged
with `how="left"`, so a day with no risk-free rate yields `NaN`; otherwise
`(ret - rf).clip(lower=-1)`. -/
def daily_ret_excess (ret : ℚ) (rf : Option ℚ) : Option ℚ :=
  rf.map (fun r => max (ret - r) (-1))

/-- Sample variance (`ddof = 1`), the square of pandas `.std()`. -/
def sampleVar (vs : List ℚ) : ℚ :=
  let n : ℚ := vs.length
  let mean := vs.sum / n
  (vs.map (fun v => (v - mean) ^ 2)).sum / (n - 1)

/-- `shift(1)` within one security's date-sorted daily series: every value
moves down one position and position `0` becomes `NaN`. -/
def shift_one (xs : List (Option ℚ)) : List (Option ℚ) :=
  none :: xs.dropLast

/-- The `window=60` rolling window of `ys` ending at position `i`
(the at most sixty entries at positions `i-59` through `i`). -/
def window_at (ys : List (Option ℚ)) (i : Nat) : List (Option ℚ) :=
  (ys.take (i + 1)).drop (i + 1 - 60)

/-- `compute_vol` (`crsp.py` lines 231-233) applied to one security's
date-sorted daily excess returns, at the sample-variance level:
`ret_excess.shift(1).rolling(window=60, min_periods=20).std()` — position `i`
is defined exactly when the sixty-wide window of the shifted series ending at
`i` holds at least twenty non-`NaN` values, and is then the sample statistic
of those values. -/
def compute_vol (xs : List (Option ℚ)) : List (Option ℚ) :=
  let ys := shift_one xs
  (List.range xs.length).map (fun i =>
    let w := (window_at ys i).filterMap id
    if 20 ≤ w.length then some (sampleVar w) else none)

/-! ### Size classification (`CRSP.classify_for_size`, `crsp.py` lines 138-153) -/

/-- A row of the CRSP monthly frame as it reaches `classify_for_size`:
`mktcap` is never `NaN` there (`create_excess_return_column` dropped such
rows at `crsp.py` line 136). -/
structure CrspRow where
  permno : Nat
  date : Int
  exchange : String
  mktcap : ℚ
  deriving DecidableEq, Repr

/-- pandas `Series.quantile(q)` with the default linear interpolation: on the
sorted values `s` it returns `s[⌊h⌋] + (h - ⌊h⌋) * (s[⌊h⌋+1] - s[⌊h⌋])` where
`h = q * (n - 1)`; on an empty series it returns `NaN`. -/
def panQuantile (q : ℚ) (xs : List ℚ) : Option ℚ :=
  match xs with
  | [] => none
  | _ :: _ =>
    let s := List.insertionSort (· ≤ ·) xs
    let h : ℚ := q * ((xs.length : ℚ) - 1)
    let k : Nat := (Int.floor h).toNat
    let lo := s.getD k 0
    let hi := s.getD (k + 1) lo
    some (lo + (h - (k : ℚ)) * (hi - lo))

/-- A float `>=` comparison whose right side may be `NaN`: any comparison with
`NaN` is false in Python. -/
def geNaN (m : ℚ) : Option ℚ → Bool
  | none => false
  | some t => decide (t ≤ m)

/-- The inner `classify_size` of `crsp.py` lines 145-151: at or above the
large threshold is `"Large"`, else at or above the small threshold is
`"Small"`, else `"Micro"`. -/
def classify_size (largeT smallT : Option ℚ) (mktcap : ℚ) : String :=
  if geNaN mktcap largeT then "Large"
  else if geNaN mktcap smallT then "Small"
  else "Micro"

/-- `CRSP.classify_for_size` (`crsp.py` lines 138-153): the 70th and 30th
percentiles of `mktcap` are taken over the NYSE rows of the whole frame (all
periods pooled), and every row is classified against that single pair of
thresholds. -/
def classify_for_size (df : List CrspRow) : List (CrspRow × String) :=
  let nyse := df.filter (fun r => r.exchange == "NYSE")
  let largeT := panQuantile (70 / 100) (nyse.map (·.mktcap))
  let smallT := panQuantile (30 / 100) (nyse.map (·.mktcap))
  df.map (fun r => (r, classify_size largeT smallT r.mktcap))

/-- The size classification exactly as claim C1 words it (per-period NYSE
thresholds, `none` for rows of a period with no NYSE rows), for comparison
with `classify_for_size`. -/
def specSizePerPeriod (df : List CrspRow) : List (CrspRow × Option String) :=
  df.map (fun r =>
    let nyse := df.filter (fun x => x.exchange == "NYSE" && x.date == r.date)
    if nyse.isEmpty then (r, none)
    else
      (r, some (classify_size
        (panQuantile (70 / 100) (nyse.map (·.mktcap)))
        (panQuantile (30 / 100) (nyse.map (·.mktcap))) r.mktcap)))

/-- The size classification as amended by the counterexample: one global pair
of NYSE thresholds pooled over all periods, `≥` comparisons, and `"Micro"`
for every row when the frame has no NYSE rows at all. -/
def specSizeGlobal (df : List CrspRow) : List (CrspRow × String) :=
  df.map (fun r =>
    let nyse := df.filter (fun x => x.exchange == "NYSE")
    if nyse.isEmpty then (r, "Micro")
    else
      (r, if geNaN r.mktcap (panQuantile (70 / 100) (nyse.map (·.mktcap))) then "Large"
          else if geNaN r.mktcap (panQuantile (30 / 100) (nyse.map (·.mktcap))) then "Small"
          else "Micro"))

/-- Two-period frame on which pooled and per-period thresholds disagree. -/
def exSizeDf : List CrspRow :=
  [⟨1, 0, "NYSE", 1⟩, ⟨2, 1, "NYSE", 100⟩]

/-- The ten NYSE market caps of the specification's boundary example. -/
def exNyseCaps : List ℚ :=
  [10, 20, 30, 40, 50, 60, 70, 80, 90, 100]

/-! ### CCM link merge (`CRSP.get_compustat_merge_links`, `crsp.py` lines 170-183) -/

/-- A row of the CCM linking table: `gvkey` may be null, `linkenddt` has had
nulls coalesced to the current date by the SQL query. -/
structure LinkRow where
  permno : Nat
  gvkey : Option Nat
  linkdt : Int
  linkenddt : Int
  deriving DecidableEq, Repr

/-- A row of the intermediate `ccm_links` frame. -/
structure CcmLink where
  permno : Nat
  gvkey : Nat
  date : Int
  deriving DecidableEq, Repr

/-- The matching links produced for one panel row by the inner merge on
`permno` followed by the query
`~gvkey.isnull() & (date >= linkdt) & (date <= linkenddt)`. -/
def rowLinks (r : CrspRow) (table : List LinkRow) : List CcmLink :=
  table.filterMap (fun l =>
    match l.gvkey with
    | some g =>
      if l.permno == r.permno && decide (l.linkdt ≤ r.date) && decide (r.date ≤ l.linkenddt) then
        some ⟨r.permno, g, r.date⟩
      else none
    | none => none)

/-- The `ccm_links` frame (`crsp.py` lines 178-181): for every panel row, in
frame order, all of its accepted link matches. -/
def ccm_links (df : List CrspRow) (table : List LinkRow) : List CcmLink :=
  (df.map (fun r => rowLinks r table)).flatten

/-- `CRSP.get_compustat_merge_links` (`crsp.py` lines 170-183): the panel is
left-merged with `ccm_links` on `(permno, date)`; a row with several matching
link records is emitted once per match, a row with none gets a null `gvkey`. -/
def get_compustat_merge_links (df : List CrspRow) (table : List LinkRow) :
    List (CrspRow × Option Nat) :=
  let links := ccm_links df table
  (df.map (fun r =>
    let ms := links.filter (fun c => c.permno == r.permno && c.date == r.date)
    if ms.isEmpty then [(r, none)] else ms.map (fun c => (r, some c.gvkey)))).flatten

/-- The link records matching one panel row, as claim C2 words it:
`security_id` matches, `entity_id` is non-null, and the period lies in
`[valid_from, valid_to]`. -/
def linkMatches (r : CrspRow) (table : List LinkRow) : List LinkRow :=
  table.filter (fun l =>
    l.permno == r.permno && l.gvkey.isSome &&
    decide (l.linkdt ≤ r.date) && decide (r.date ≤ l.linkenddt))

/-- The linking exactly as claim C2 words it: each panel row is kept exactly
once and receives the `entity_id` of the first matching link record, null if
none matches. -/
def specLinkFirstMatch (df : List CrspRow) (table : List LinkRow) :
    List (CrspRow × Option Nat) :=
  df.map (fun r => (r, (linkMatches r table).head?.bind (·.gvkey)))

/-- The linking as amended: each panel row is emitted once per matching link
record, in table order, with that record's `entity_id`; a row with no match is
emitted once with a null `entity_id`. -/
def specLinkAllMatches (df : List CrspRow) (table : List LinkRow) :
    List (CrspRow × Option Nat) :=
  (df.map (fun r =>
    let ms := linkMatches r table
    if ms.isEmpty then [(r, none)] else ms.map (fun l => (r, l.gvkey)))).flatten

/-- One panel row with two link records valid over its period. -/
def exLinkDf : List CrspRow := [⟨1, 5, "NYSE", 3⟩]

/-- Two link records that both match permno 1 at period 5. -/
def exLinkTable : List LinkRow := [⟨1, some 11, 0, 10⟩, ⟨1, some 22, 0, 10⟩]

/-! ### Forward excess return (`FamaMacbeth.prepare_data`, `fama_macbeth.py` lines 61-69) -/

/-- A row of the assembled monthly panel as it reaches the forward-return
step; `date` counts months, every other regression column is taken as
defined so that `dropna` is decided by the forward return alone. -/
structure FMRow where
  permno : Nat
  date : Int
  ret_excess : ℚ
  deriving DecidableEq, Repr

/-- The `data_fama_macbeth_lagged` merge (`fama_macbeth.py` lines 61-67): the
panel is copied with `date` moved back one month and `ret_excess` renamed, and
the panel is left-merged with the copy on `(permno, date)`, so the row at
period `t` receives the excess return observed at `t + 1` (all matches, in
frame order; null when none). -/
def forward_merge (df : List FMRow) : List (FMRow × Option ℚ) :=
  let lagged : List (Nat × Int × ℚ) := df.map (fun r => (r.permno, r.date - 1, r.ret_excess))
  (df.map (fun r =>
    let ms := lagged.filter (fun l => l.1 == r.permno && l.2.1 == r.date)
    if ms.isEmpty then [(r, none)] else ms.map (fun l => (r, some l.2.2)))).flatten

/-- Lines 61-69 of `fama_macbeth.py` for this reduced panel: attach the
forward excess return and `dropna` the rows where it is undefined (the other
selected columns are total in this embedding). -/
def prepare_forward (df : List FMRow) : List (FMRow × ℚ) :=
  (forward_merge df).filterMap (fun p => p.2.map (fun v => (p.1, v)))

/-! ### Firm-year deduplication (`Compustat.add_be_and_op_columns`, `compustat.py` lines 122-128) -/

/-- A raw Compustat record: entity, fiscal date, and total assets standing in
for the payload carried through the dedup step. -/
structure CompRow where
  gvkey : Nat
  datadate : PyDate
  tot_assets : ℚ
  deriving DecidableEq, Repr

/-- Lexicographic date order used by `sort_values("datadate")`. -/
def pdle (a b : PyDate) : Prop :=
  a.y < b.y ∨ (a.y = b.y ∧ (a.m < b.m ∨ (a.m = b.m ∧ a.d ≤ b.d)))

instance (a b : PyDate) : Decidable (pdle a b) := by
  unfold pdle; exact inferInstance

/-- Row comparison of `sort_values("datadate")` on the Compustat frame. -/
def rowLe (a b : CompRow) : Prop := pdle a.datadate b.datadate

instance : DecidableRel rowLe := fun a b => by
  unfold rowLe; exact inferInstance

instance : IsTotal CompRow rowLe where
  total := by intro a b; unfold rowLe pdle; omega

instance : IsTrans CompRow rowLe where
  trans := by intro a b c; unfold rowLe pdle; omega

/-- `groupby(["gvkey", "year"]).tail(1)` on a frame: a row survives exactly
when no later row of the frame shares its `(gvkey, calendar year)` key; the
survivors keep their frame order. -/
def tail_one : List CompRow → List CompRow
  | [] => []
  | x :: xs =>
    if xs.any (fun b => x.gvkey == b.gvkey && x.datadate.y == b.datadate.y) then tail_one xs
    else x :: tail_one xs

/-- The possible outcomes of `sort_values("datadate")` (`compustat.py` line
124): a single-column pandas sort with the default `kind="quicksort"`, which
is not stable, so the program guarantees only that the output is some
permutation of the frame that is non-decreasing in `datadate`; the relative
order of rows with equal `datadate` is unspecified. -/
def sort_values_datadate (df s : List CompRow) : Prop :=
  s.Perm df ∧ List.Sorted rowLe s

/-- The deduplication of `compustat.py` lines 122-128 applied to an
admissible output `s` of the unstable sort: keep the last row of every
`(gvkey, year)` group of the sorted frame. -/
def dedup_firm_years_from (s : List CompRow) : List CompRow :=
  tail_one s

/-- First-fetched of two records of one entity and year with the same
fiscal date. -/
def exTieA : CompRow := ⟨7, ⟨2020, 12, 31⟩, 100⟩

/-- Last-fetched of two records of one entity and year with the same
fiscal date. -/
def exTieB : CompRow := ⟨7, ⟨2020, 12, 31⟩, 120⟩

/-- Two records of one entity and calendar year, June and December 2020. -/
def exJuneRec : CompRow := ⟨7, ⟨2020, 6, 30⟩, 100⟩

/-- The December record of the same entity and year. -/
def exDecRec : CompRow := ⟨7, ⟨2020, 12, 31⟩, 120⟩

/-! ### Panel assembly (`FamaMacbeth.prepare_data`, `fama_macbeth.py` lines 42-59) -/

/-- A row of the stored `crsp` table as read back by `prepare_data`: `date`
counts months (the month-truncated timestamp), `gvkey` is the nullable linked
entity. -/
structure CrspMonthly where
  permno : Nat
  gvkey : Option Nat
  date : Int
  mktcap : ℚ
  ret_excess : ℚ
  deriving DecidableEq, Repr

/-- The four characteristic columns attached to a panel row; `log_bm` and
`log_mktcap` hold the exact argument the source passes to `np.log` (the
logarithm itself, being injective on positives, is applied last and tracked
through its argument). -/
structure MergedVals where
  log_bm : Option ℚ
  op : Option ℚ
  inv : Option ℚ
  log_mktcap : Option ℚ
  deriving DecidableEq, Repr

/-- The all-null characteristic payload a panel row gets when no fundamentals
record matches it. -/
def noVals : MergedVals := ⟨none, none, none, none⟩

/-- A row of the stored `compustat` table: `datadate` is reduced to its month
index (`datadate.dt.to_period("M")`), `be`, `op`, `inv` are the annual
characteristics, each possibly null. -/
structure CompAnnual where
  gvkey : Nat
  datadate : Int
  be : Option ℚ
  op : Option ℚ
  inv : Option ℚ
  deriving DecidableEq, Repr

/-- The `characteristics` frame (`fama_macbeth.py` lines 42-50): each
fundamentals record is left-merged with the security panel on
`(gvkey, date == datadate-month)` (one output per matching security row, in
frame order; one null-payload output when none matches), and carries
`log_bm = log(be / mktcap)` gated on `be > 0`, `log_mktcap = log(mktcap)`
(both tracked by the argument of `log`), `op`, `inv`, and
`sorting_date = datadate-month + lag` months. -/
def characteristics (comp : List CompAnnual) (crsp : List CrspMonthly) (lag : Int) :
    List (Nat × Int × MergedVals) :=
  (comp.map (fun c =>
    let ms := crsp.filter (fun r => r.gvkey == some c.gvkey && r.date == c.datadate)
    let build : Option ℚ → Nat × Int × MergedVals := fun mk =>
      (c.gvkey, c.datadate + lag,
        { log_bm := match c.be, mk with
            | some b, some m => if 0 < b then some (b / m) else none
            | _, _ => none
          op := c.op
          inv := c.inv
          log_mktcap := mk })
    if ms.isEmpty then [build none] else ms.map (fun r => build (some r.mktcap)))).flatten

/-- The merge of `fama_macbeth.py` line 52: the security panel is left-merged
with `characteristics` on `(gvkey, date == sorting_date)`; a row with no
matching characteristic keeps null characteristic columns. -/
def merge_characteristics (crsp : List CrspMonthly) (chars : List (Nat × Int × MergedVals)) :
    List (CrspMonthly × MergedVals) :=
  (crsp.map (fun r =>
    let ms := chars.filter (fun c => some c.1 == r.gvkey && c.2.1 == r.date)
    if ms.isEmpty then [(r, noVals)] else ms.map (fun c => (r, c.2.2)))).flatten

/-- `sort_values(["date", "permno"])` comparison. -/
def dpLe (a b : CrspMonthly × MergedVals) : Prop :=
  a.1.date < b.1.date ∨ (a.1.date = b.1.date ∧ a.1.permno ≤ b.1.permno)

instance (a b : CrspMonthly × MergedVals) : Decidable (dpLe a b) := by
  unfold dpLe; exact inferInstance

instance : IsTotal (CrspMonthly × MergedVals) dpLe where
  total := by intro a b; unfold dpLe; omega

instance : IsTrans (CrspMonthly × MergedVals) dpLe where
  trans := by intro a b c; unfold dpLe; omega

/-- `fillna(method="ffill")` on one column with running last defined value
`acc`. -/
def ffillGo {α : Type} (acc : Option α) : List (Option α) → List (Option α)
  | [] => []
  | none :: rest => acc :: ffillGo acc rest
  | some v :: rest => some v :: ffillGo (some v) rest

/-- `fillna(method="ffill")` on one column: every null takes the nearest
earlier defined value, nulls before the first defined value remain null. -/
def ffill_col {α : Type} (xs : List (Option α)) : List (Option α) :=
  ffillGo none xs

/-- The per-group body of `fama_macbeth.py` lines 55-58: each of the four
characteristic columns of the group is forward-filled independently and the
rows are reassembled positionally. -/
def ffill_vals (vs : List MergedVals) : List MergedVals :=
  let lb := ffill_col (vs.map (·.log_bm))
  let o := ffill_col (vs.map (·.op))
  let iv := ffill_col (vs.map (·.inv))
  let lm := ffill_col (vs.map (·.log_mktcap))
  (List.range vs.length).map (fun i =>
    ⟨lb.getD i none, o.getD i none, iv.getD i none, lm.getD i none⟩)

/-- The ascending group keys of `groupby("permno")`. -/
def sortedPermnos (l : List (CrspMonthly × MergedVals)) : List Nat :=
  List.insertionSort (· ≤ ·) ((l.map (·.1.permno)).dedup)

/-- Lines 52-59 of `fama_macbeth.py`: sort the merged panel by
`(date, permno)`, then for each `permno` group (ascending keys, rows in frame
order, hence date order) forward-fill the characteristic columns within the
group, and concatenate the groups. -/
def groupby_ffill (l : List (CrspMonthly × MergedVals)) : List (CrspMonthly × MergedVals) :=
  let s := List.insertionSort dpLe l
  ((sortedPermnos s).map (fun p =>
    let g := s.filter (fun x => x.1.permno == p)
    (g.map (·.1)).zip (ffill_vals (g.map (·.2))))).flatten

/-- The characteristic-attachment pipeline of `fama_macbeth.py` lines 42-59:
build `characteristics`, merge them into the security panel at
`sorting_date`, and forward-fill per security. -/
def prepare_characteristics (comp : List CompAnnual) (crsp : List CrspMonthly) (lag : Int) :
    List (CrspMonthly × MergedVals) :=
  groupby_ffill (merge_characteristics crsp (characteristics comp crsp lag))

/-- A seven-month single-security panel whose market cap is 1 at month 0 and
2 afterwards. -/
def exC10Crsp : List CrspMonthly :=
  (List.range 7).map (fun t => ⟨7, some 3, Int.ofNat t, if t == 0 then 1 else 2, 0⟩)

/-- One fundamentals record with fiscal month 0 for the entity of
`exC10Crsp` (book equity left null so that no exact division occurs when the
pipeline is evaluated on it). -/
def exC10Comp : List CompAnnual := [⟨3, 0, none, some 5, some 9⟩]

/-- The generic single-security panel used to state the amended C10: `n`
months of one security with market caps `caps`. -/
def oneSecurityCrsp (caps : List ℚ) (p g : Nat) : List CrspMonthly :=
  (List.range caps.length).map (fun t => ⟨p, some g, Int.ofNat t, caps.getD t 0, 0⟩)

/-- The last defined value of a column prefix, starting from `acc`; the
reference value of a forward fill. -/
def lastD {α : Type} (acc : Option α) (l : List (Option α)) : Option α :=
  l.foldl (fun a x => match x with | some v => some v | none => a) acc

/-- One security's three-month panel with excess returns 5, 7, 9. -/
def exFwdDf : List FMRow := [⟨1, 0, 5⟩, ⟨1, 1, 7⟩, ⟨1, 2, 9⟩]

/-- A characteristic column with one update at month 3 and nulls through
month 8. -/
def exFfillCol : List (Option ℚ) :=
  [none, none, none, some 5, none, none, none, none, none]

/-! ## Helper lemmas -/

/-- Folding `acc * (1 + r)` over a `drop`/`take` window is the product of
`1 + value` over the window's index range. -/
theorem foldl_window_prod (l : List ℚ) (a b : Nat) (h : a + b ≤ l.length) :
    ((l.drop a).take b).foldl (fun acc r => acc * (1 + r)) 1 =
      ∏ j ∈ Finset.range b, (1 + l.getD (a + j) 0) := by
  induction b with
  | zero => simp
  | succ n ih =>
    have hlt : a + n < l.length := by omega
    have hidx : (l.drop a)[n]? = some (l.getD (a + n) 0) := by
      rw [List.getElem?_drop, List.getD_eq_getElem?_getD,
        List.getElem?_eq_getElem hlt]
      rfl
    rw [List.take_succ, hidx, List.foldl_append, Finset.prod_range_succ,
      ih (by omega)]
    simp [mul_comm]

/-! ## C3 — Momentum -/

/-- C3: for every security, after sorting by period, momentum at 0-based
index `i` in the security's own subsequence is undefined for `i < 12`, and
for `i ≥ 12` equals the product of `1 + excess_return` over the eleven
observations at indices `i-12` through `i-2` inclusive, minus one. -/
theorem C3_momentum_window (rets : List ℚ) (i : Nat) (hi : i < rets.length) :
    (i < 12 → (compute_momentum rets).getD i none = none) ∧
    (12 ≤ i → (compute_momentum rets).getD i none =
      some ((∏ j ∈ Finset.Icc (i - 12) (i - 2), (1 + rets.getD j 0)) - 1)) := by
  have key : (compute_momentum rets).getD i none =
      (if i < 12 then none
       else some ((((rets.drop (i - 12)).take 11).foldl (fun a r => a * (1 + r)) 1) - 1)) := by
    unfold compute_momentum
    rw [List.getD_eq_getElem?_getD, List.getElem?_map, List.getElem?_range hi]
    rfl
  refine ⟨fun h => by rw [key, if_pos h], fun h => ?_⟩
  rw [key, if_neg (by omega)]
  have e1 : Finset.Icc (i - 12) (i - 2) = Finset.Ico (i - 12) (i - 1) := by
    rw [← Nat.Ico_succ_right]
    congr 1
    omega
  have e2 : i - 1 - (i - 12) = 11 := by omega
  rw [e1, Finset.prod_Ico_eq_prod_range, e2,
    ← foldl_window_prod rets (i - 12) 11 (by omega)]

/-- Thirteen consecutive monthly excess returns for one security. -/
def exMomRets : List ℚ :=
  [1, 2, 3, 4, 5, 6, 7, 8, 9, 10, 11, 12, 13]

/-- Witness for C3 at thirteen observations and index 12. -/
theorem C3_momentum_window_witness :
    (12 : Nat) < exMomRets.length ∧
    ((12 < 12 → (compute_momentum exMomRets).getD 12 none = none) ∧
     (12 ≤ 12 → (compute_momentum exMomRets).getD 12 none =
       some ((∏ j ∈ Finset.Icc (12 - 12) (12 - 2), (1 + exMomRets.getD j 0)) - 1))) :=
  ⟨by decide, C3_momentum_window exMomRets 12 (by decide)⟩

/-! ## C4 — Volatility -/

/-- On a fully defined daily series, the rolling statistic at position `i`
uses exactly the `min i 60` observations at positions `i-60` through `i-1`,
and is defined exactly when there are at least twenty of them. -/
theorem compute_vol_all_some (xs : List ℚ) (i : Nat) (hi : i < xs.length) :
    (compute_vol (xs.map some)).getD i none =
      if 20 ≤ min i 60 then some (sampleVar ((xs.drop (i - 60)).take (min i 60))) else none := by
  have hi' : i < (xs.map some).length := by simpa using hi
  have key : (compute_vol (xs.map some)).getD i none =
      (let w := (window_at (shift_one (xs.map some)) i).filterMap id
       if 20 ≤ w.length then some (sampleVar w) else none) := by
    unfold compute_vol
    rw [List.getD_eq_getElem?_getD, List.getElem?_map, List.getElem?_range hi']
    rfl
  have htail : ((xs.map some).dropLast.take i).filterMap id = xs.take i := by
    rw [← List.map_dropLast, ← List.map_take, List.filterMap_map]
    have : (id ∘ some : ℚ → Option ℚ) = some := rfl
    rw [this, List.filterMap_some, List.dropLast_eq_take, List.take_take,
      Nat.min_eq_left (by omega)]
  have hw : (window_at (shift_one (xs.map some)) i).filterMap id =
      (xs.drop (i - 60)).take (min i 60) := by
    unfold window_at shift_one
    rcases Nat.lt_or_ge i 60 with hlt | hge
    · have h0 : i + 1 - 60 = 0 := by omega
      rw [h0, List.take_succ_cons, List.drop_zero, List.filterMap_cons]
      simp only [id]
      rw [htail]
      have : i - 60 = 0 := by omega
      rw [this, List.drop_zero, Nat.min_eq_left (by omega)]
    · have h1 : i + 1 - 60 = (i - 60) + 1 := by omega
      rw [h1, List.take_succ_cons, List.drop_succ_cons]
      rw [← List.filterMap_some ((xs.drop (i - 60)).take (min i 60))]
      have : ((xs.map some).dropLast.take i).drop (i - 60) =
          ((xs.drop (i - 60)).take (min i 60)).map some := by
        rw [← List.map_dropLast, ← List.map_take, ← List.map_drop]
        congr 1
        rw [List.dropLast_eq_take, List.take_take, Nat.min_eq_left (by omega),
          List.drop_take]
        congr 1
        omega
      rw [this, List.filterMap_map]
      rfl
  have hlen : ((xs.drop (i - 60)).take (min i 60)).length = min i 60 := by
    simp only [List.length_take, List.length_drop]
    omega
  rw [key]
  simp only [hw, hlen]

/-- C4: volatility is computed per security from daily excess returns (daily
return minus risk-free rate, clipped below at −1, null when the rate is
missing) as the rolling sample statistic over the sixty observations ending
at the prior day (shift by one before windowing), defined only with at least
twenty observations in the window; a series of fewer than twenty observations
is undefined everywhere, and with exactly sixty valid prior observations the
window is precisely those sixty values.  (`.std()` is the square root of the
stated sample variance.) -/
theorem C4_volatility_window (xs : List ℚ) (i : Nat) (hi : i < xs.length) (ret rf : ℚ) :
    daily_ret_excess ret (some rf) = some (max (ret - rf) (-1)) ∧
    daily_ret_excess ret none = none ∧
    (xs.length < 20 → (compute_vol (xs.map some)).getD i none = none) ∧
    (i < 20 → (compute_vol (xs.map some)).getD i none = none) ∧
    (20 ≤ i → (compute_vol (xs.map some)).getD i none ≠ none) ∧
    (60 ≤ i → (compute_vol (xs.map some)).getD i none =
      some (sampleVar ((xs.drop (i - 60)).take 60))) := by
  have key := compute_vol_all_some xs i hi
  refine ⟨rfl, rfl, fun h => ?_, fun h => ?_, fun h => ?_, fun h => ?_⟩
  · rw [key, if_neg (by omega)]
  · rw [key, if_neg (by omega)]
  · rw [key, if_pos (by omega)]
    exact Option.some_ne_none _
  · rw [key, if_pos (by omega)]
    have : min i 60 = 60 := by omega
    rw [this]

/-- Sixty-one daily observations, all equal. -/
def exVolXs : List ℚ := List.replicate 61 1

/-- Witness for C4 at a 61-observation series and position 60. -/
theorem C4_volatility_window_witness :
    (60 : Nat) < exVolXs.length ∧
    (daily_ret_excess 5 (some 2) = some (max (5 - 2 : ℚ) (-1)) ∧
     daily_ret_excess 5 none = none ∧
     (exVolXs.length < 20 → (compute_vol (exVolXs.map some)).getD 60 none = none) ∧
     (60 < 20 → (compute_vol (exVolXs.map some)).getD 60 none = none) ∧
     (20 ≤ 60 → (compute_vol (exVolXs.map some)).getD 60 none ≠ none) ∧
     (60 ≤ 60 → (compute_vol (exVolXs.map some)).getD 60 none =
       some (sampleVar ((exVolXs.drop (60 - 60)).take 60)))) :=
  ⟨by decide, C4_volatility_window exVolXs 60 (by decide) 5 2⟩

/-! ## C9 — Date-range validation -/

/-- C9: with two dates in order, validation succeeds and round-trips both
dates unchanged; with the final date earlier it fails with the invalid-range
error; a string that does not parse as `YYYY-MM-DD` fails fast with a message
naming the offending parameter; a string that does parse round-trips; an
input that is neither a date nor a string fails fast naming the parameter. -/
theorem C9_date_range_validation (d1 d2 e1 e2 dd : PyDate) (s t : List Char) (p : String)
    (hok : PyDate.ltb d2 d1 = false) (hgt : PyDate.ltb e2 e1 = true)
    (hbad : parseYMD s = none) (hgood : parseYMD t = some dd) :
    set_data_validate (.dt d1) (.dt d2) = .ok (d1, d2) ∧
    set_data_validate (.dt e1) (.dt e2) =
      .error (.valueError "final_date cannot be earlier than start_date.") ∧
    convert_to_datetime (.str s) p =
      .error (.valueError ("Invalid " ++ p ++ " format. Use YYYY-MM-DD.")) ∧
    convert_to_datetime (.str t) p = .ok dd ∧
    convert_to_datetime .other p =
      .error (.typeError (p ++ " must be either a datetime object or a string in YYYY-MM-DD format.")) := by
  refine ⟨?_, ?_, ?_, ?_, rfl⟩
  · simp [set_data_validate, convert_to_datetime, hok, Bind.bind, Except.bind]
  · simp [set_data_validate, convert_to_datetime, hgt, Bind.bind, Except.bind]
  · simp [convert_to_datetime, hbad]
  · simp [convert_to_datetime, hgood]

/-- Witness for C9 at concrete dates and strings. -/
theorem C9_date_range_validation_witness :
    set_data_validate (.dt ⟨2020, 1, 1⟩) (.dt ⟨2020, 12, 31⟩) =
      .ok (⟨2020, 1, 1⟩, ⟨2020, 12, 31⟩) ∧
    set_data_validate (.dt ⟨2021, 1, 1⟩) (.dt ⟨2020, 1, 1⟩) =
      .error (.valueError "final_date cannot be earlier than start_date.") ∧
    convert_to_datetime (.str "13-02-2024".data) "start_date" =
      .error (.valueError ("Invalid " ++ "start_date" ++ " format. Use YYYY-MM-DD.")) ∧
    convert_to_datetime (.str "2024-02-13".data) "start_date" = .ok ⟨2024, 2, 13⟩ ∧
    convert_to_datetime .other "start_date" =
      .error (.typeError ("start_date" ++ " must be either a datetime object or a string in YYYY-MM-DD format.")) :=
  C9_date_range_validation ⟨2020, 1, 1⟩ ⟨2020, 12, 31⟩ ⟨2021, 1, 1⟩ ⟨2020, 1, 1⟩
    ⟨2024, 2, 13⟩ "13-02-2024".data "2024-02-13".data "start_date"
    (by decide) (by decide) (by decide) (by decide)

/-! ## C8 — Write operations -/

/-- C8 counterexample: `CRSP.write_to_sql` on an empty frame writes the empty
table successfully instead of failing with a no-data error, so the claim that
every component's write fails on empty data is false. -/
theorem C8_write_counterexample :
    crsp_write_to_sql (some ([] : List CrspRow)) = .ok [] := rfl

/-- C8 as amended: `Compustat.write_to_sql` fails with the explicit no-data
error when its frame is `None` or empty and writes otherwise, while
`CRSP.write_to_sql` performs no such check: any non-`None` frame, the empty
one included, is written, and a `None` frame raises a plain attribute error
rather than the no-data message. -/
theorem C8_write_no_data (l : List CompRow) (m : List CrspRow) :
    compustat_write_to_sql (none : Option (List CompRow)) =
      .error (.valueError "No data available to write to SQL. Ensure that set_data has been executed.") ∧
    compustat_write_to_sql (some ([] : List CompRow)) =
      .error (.valueError "No data available to write to SQL. Ensure that set_data has been executed.") ∧
    compustat_write_to_sql (some l) =
      (if l.isEmpty then
        .error (.valueError "No data available to write to SQL. Ensure that set_data has been executed.")
       else .ok l) ∧
    crsp_write_to_sql (some m) = .ok m ∧
    crsp_write_to_sql (none : Option (List CrspRow)) =
      .error (.typeError "NoneType object has no attribute to_sql") :=
  ⟨rfl, rfl, rfl, rfl, rfl⟩

/-! ## C1 — Size classification -/

/-- C1 counterexample: on a two-period frame the source classifies the
period-0 NYSE row with cap 1 as `"Micro"` (pooled thresholds 70.3/30.7),
while the claimed per-period thresholds classify it as `"Large"`; so the
thresholds are not computed per period. -/
theorem C1_size_counterexample :
    (classify_for_size exSizeDf).map (fun p => some p.2) = [some "Micro", some "Large"] ∧
    (specSizePerPeriod exSizeDf).map (·.2) = [some "Large", some "Large"] ∧
    (classify_for_size exSizeDf).map (fun p => some p.2) ≠
      (specSizePerPeriod exSizeDf).map (·.2) := by
  have h1 : (classify_for_size exSizeDf).map (fun p => some p.2) = [some "Micro", some "Large"] := by
    norm_num [classify_for_size, exSizeDf, panQuantile, classify_size, geNaN,
      List.insertionSort, List.orderedInsert, List.getD, Int.toNat]
  have h2 : (specSizePerPeriod exSizeDf).map (·.2) = [some "Large", some "Large"] := by
    norm_num [specSizePerPeriod, exSizeDf, panQuantile, classify_size, geNaN,
      List.insertionSort, List.orderedInsert, List.getD, Int.toNat]
  refine ⟨h1, h2, ?_⟩
  rw [h1, h2]
  decide

/-- C1 as amended: the Large/Small/Micro thresholds are the 70th and 30th
percentiles of market cap over the NYSE rows of the whole frame, all periods
pooled; every row is classified against this single pair of thresholds with
`≥` comparisons (a cap equal to a threshold goes to the higher category, as
in the specification's ten-cap example); and when the frame has no NYSE rows
at all the thresholds are undefined and every row is classified `"Micro"`. -/
theorem C1_size_global_thresholds (df : List CrspRow) :
    classify_for_size df = specSizeGlobal df ∧
    classify_size (panQuantile (70 / 100) exNyseCaps)
      (panQuantile (30 / 100) exNyseCaps) 95 = "Large" ∧
    classify_size (panQuantile (70 / 100) exNyseCaps)
      (panQuantile (30 / 100) exNyseCaps) 25 = "Micro" ∧
    (∀ tq : ℚ, classify_size (some tq) (some tq) tq = "Large") := by
  refine ⟨?_, ?_, ?_, fun tq => by simp [classify_size, geNaN]⟩
  · unfold classify_for_size specSizeGlobal
    cases h : df.filter (fun r => r.exchange == "NYSE") with
    | nil => simp [h, classify_size, panQuantile, geNaN]
    | cons a t => simp [h, classify_size]
  · have hs : List.insertionSort (· ≤ ·) exNyseCaps = exNyseCaps := by
      norm_num [exNyseCaps, List.insertionSort, List.orderedInsert]
    have hf : ⌊(70 / 100 : ℚ) * (((exNyseCaps.length : ℚ)) - 1)⌋ = 6 := by
      norm_num [exNyseCaps]
    simp only [panQuantile, exNyseCaps, classify_size, geNaN] at hs hf ⊢
    simp only [hs, hf]
    norm_num [List.getD, Int.toNat]
  · have hs : List.insertionSort (· ≤ ·) exNyseCaps = exNyseCaps := by
      norm_num [exNyseCaps, List.insertionSort, List.orderedInsert]
    have hf70 : ⌊(70 / 100 : ℚ) * (((exNyseCaps.length : ℚ)) - 1)⌋ = 6 := by
      norm_num [exNyseCaps]
    have hf30 : ⌊(30 / 100 : ℚ) * (((exNyseCaps.length : ℚ)) - 1)⌋ = 2 := by
      norm_num [exNyseCaps]
    simp only [panQuantile, exNyseCaps, classify_size, geNaN] at hs hf70 hf30 ⊢
    simp only [hs, hf70, hf30]
    norm_num [List.getD, Int.toNat]

/-! ## C2 — Link merge -/

/-- C2 counterexample: one panel row with two link records both valid over its
period is emitted twice by the source (once per match), not once with the
first match, so the claim that exactly the first match is attached and the
row is not duplicated is false. -/
theorem C2_link_counterexample :
    get_compustat_merge_links exLinkDf exLinkTable =
      [(⟨1, 5, "NYSE", 3⟩, some 11), (⟨1, 5, "NYSE", 3⟩, some 22)] ∧
    specLinkFirstMatch exLinkDf exLinkTable = [(⟨1, 5, "NYSE", 3⟩, some 11)] ∧
    (get_compustat_merge_links exLinkDf exLinkTable).length = 2 ∧
    get_compustat_merge_links exLinkDf exLinkTable ≠
      specLinkFirstMatch exLinkDf exLinkTable := by
  refine ⟨by decide, by decide, by decide, by decide⟩

/-- Every intermediate link produced for a panel row carries that row's
`permno` and `date`. -/
theorem mem_rowLinks_key {r : CrspRow} {table : List LinkRow} {c : CcmLink}
    (hc : c ∈ rowLinks r table) : c.permno = r.permno ∧ c.date = r.date := by
  unfold rowLinks at hc
  rcases List.mem_filterMap.mp hc with ⟨l, _, hl⟩
  cases hg : l.gvkey with
  | none => rw [hg] at hl; exact absurd hl (by simp)
  | some g =>
    rw [hg] at hl
    by_cases hcond : (l.permno == r.permno && decide (l.linkdt ≤ r.date) &&
        decide (r.date ≤ l.linkenddt)) = true
    · simp only [hcond, if_true] at hl
      cases hl
      exact ⟨rfl, rfl⟩
    · simp only [hcond, if_false] at hl
      exact absurd hl (by simp)

/-- Every row of the `ccm_links` frame carries the key of some panel row. -/
theorem mem_ccm_links_key {df : List CrspRow} {table : List LinkRow} {c : CcmLink}
    (hc : c ∈ ccm_links df table) :
    ∃ b ∈ df, c.permno = b.permno ∧ c.date = b.date := by
  unfold ccm_links at hc
  rcases List.mem_flatten.mp hc with ⟨s, hs, hcs⟩
  rcases List.mem_map.mp hs with ⟨b, hb, rfl⟩
  exact ⟨b, hb, mem_rowLinks_key hcs⟩

/-- With pairwise-distinct `(permno, date)` keys, filtering `ccm_links` by one
panel row's key recovers exactly that row's own link matches. -/
theorem filter_ccm_links (df : List CrspRow) (table : List LinkRow) (r : CrspRow)
    (hr : r ∈ df)
    (hkeys : df.Pairwise (fun a b => ¬(a.permno = b.permno ∧ a.date = b.date))) :
    (ccm_links df table).filter (fun c => c.permno == r.permno && c.date == r.date) =
      rowLinks r table := by
  induction df with
  | nil => cases hr
  | cons a t ih =>
    have hsplit : ccm_links (a :: t) table = rowLinks a table ++ ccm_links t table := by
      unfold ccm_links
      rw [List.map_cons, List.flatten_cons]
    rw [hsplit, List.filter_append]
    rcases List.pairwise_cons.mp hkeys with ⟨hhead, htail⟩
    rcases List.mem_cons.mp hr with hra | hrt
    · subst hra
      have h1 : (rowLinks r table).filter
          (fun c => c.permno == r.permno && c.date == r.date) = rowLinks r table := by
        apply List.filter_eq_self.mpr
        intro c hc
        rcases mem_rowLinks_key hc with ⟨h1, h2⟩
        simp [h1, h2]
      have h2 : (ccm_links t table).filter
          (fun c => c.permno == r.permno && c.date == r.date) = [] := by
        apply List.filter_eq_nil_iff.mpr
        intro c hc
        rcases mem_ccm_links_key hc with ⟨b, hb, hc1, hc2⟩
        have := hhead b hb
        simp only [Bool.and_eq_true, beq_iff_eq]
        rintro ⟨e1, e2⟩
        exact this ⟨by omega, by omega⟩
      rw [h1, h2, List.append_nil]
    · have h1 : (rowLinks a table).filter
          (fun c => c.permno == r.permno && c.date == r.date) = [] := by
        apply List.filter_eq_nil_iff.mpr
        intro c hc
        rcases mem_rowLinks_key hc with ⟨hc1, hc2⟩
        have := hhead r hrt
        simp only [Bool.and_eq_true, beq_iff_eq]
        rintro ⟨e1, e2⟩
        exact this ⟨by omega, by omega⟩
      rw [h1, List.nil_append]
      exact ih hrt htail

/-- The code's per-row link block and the claim-worded per-row block agree:
same emptiness and the same emitted pairs. -/
theorem rowLinks_linkMatches (r : CrspRow) (table : List LinkRow) :
    (rowLinks r table).map (fun c => (r, some c.gvkey)) =
      (linkMatches r table).map (fun l => (r, l.gvkey)) ∧
    (rowLinks r table).isEmpty = (linkMatches r table).isEmpty := by
  induction table with
  | nil => exact ⟨rfl, rfl⟩
  | cons l T ih =>
    cases hg : l.gvkey with
    | none =>
      have e1 : rowLinks r (l :: T) = rowLinks r T := by
        unfold rowLinks
        rw [List.filterMap_cons, hg]
      have e2 : linkMatches r (l :: T) = linkMatches r T := by
        unfold linkMatches
        rw [List.filter_cons]
        simp [hg]
      rw [e1, e2]
      exact ih
    | some g =>
      by_cases hcond : (l.permno == r.permno && decide (l.linkdt ≤ r.date) &&
          decide (r.date ≤ l.linkenddt)) = true
      · have e1 : rowLinks r (l :: T) = ⟨r.permno, g, r.date⟩ :: rowLinks r T := by
          unfold rowLinks
          rw [List.filterMap_cons, hg]
          simp only [hcond, if_true]
        have e2 : linkMatches r (l :: T) = l :: linkMatches r T := by
          unfold linkMatches
          rw [List.filter_cons]
          have hcond2 : (l.permno == r.permno && l.gvkey.isSome &&
              decide (l.linkdt ≤ r.date) && decide (r.date ≤ l.linkenddt)) = true := by
            simp only [hg, Option.isSome_some, Bool.and_true]
            exact hcond
          rw [if_pos hcond2]
        rw [e1, e2, List.map_cons, List.map_cons, ih.1]
        refine ⟨by rw [hg], by simp⟩
      · have hcondf : (l.permno == r.permno && decide (l.linkdt ≤ r.date) &&
            decide (r.date ≤ l.linkenddt)) = false := by
          simpa using hcond
        have e1 : rowLinks r (l :: T) = rowLinks r T := by
          unfold rowLinks
          rw [List.filterMap_cons, hg]
          simp [hcondf]
        have e2 : linkMatches r (l :: T) = linkMatches r T := by
          unfold linkMatches
          rw [List.filter_cons]
          have hcond2 : (l.permno == r.permno && l.gvkey.isSome &&
              decide (l.linkdt ≤ r.date) && decide (r.date ≤ l.linkenddt)) = false := by
            simp only [hg, Option.isSome_some, Bool.and_true]
            exact hcondf
          rw [hcond2, if_neg (by simp)]
        rw [e1, e2]
        exact ih

/-- C2 as amended: on a panel with pairwise-distinct `(security, period)`
keys, the link step attaches, for each panel row, every link record whose
`security_id` matches, whose `entity_id` is non-null, and whose validity
interval contains the row's period — one output row per match, in table
order, duplicating the panel row when several match — and a null
`linked_entity_id` when none matches; the operation is total. -/
theorem C2_link_all_matches (df : List CrspRow) (table : List LinkRow)
    (hkeys : df.Pairwise (fun a b => ¬(a.permno = b.permno ∧ a.date = b.date))) :
    get_compustat_merge_links df table = specLinkAllMatches df table := by
  unfold get_compustat_merge_links specLinkAllMatches
  dsimp only
  congr 1
  apply List.map_congr_left
  intro r hr
  have hflt := filter_ccm_links df table r hr hkeys
  simp only [hflt]
  rcases rowLinks_linkMatches r table with ⟨hmap, hemp⟩
  rw [hemp]
  by_cases he : (linkMatches r table).isEmpty = true
  · rw [if_pos he, if_pos he]
  · rw [if_neg he, if_neg he, hmap]

/-- Witness for C2 as amended, at the two-match example. -/
theorem C2_link_all_matches_witness :
    exLinkDf.Pairwise (fun a b => ¬(a.permno = b.permno ∧ a.date = b.date)) ∧
    get_compustat_merge_links exLinkDf exLinkTable =
      specLinkAllMatches exLinkDf exLinkTable :=
  ⟨by simp [exLinkDf], C2_link_all_matches exLinkDf exLinkTable (by simp [exLinkDf])⟩

/-! ## C5 — Forward excess return -/

/-- Membership in the final panel corresponds to membership with a defined
forward return before `dropna`. -/
theorem prepare_forward_mem (df : List FMRow) (a : FMRow) (v : ℚ) :
    (a, v) ∈ prepare_forward df ↔ (a, some v) ∈ forward_merge df := by
  unfold prepare_forward
  rw [List.mem_filterMap]
  constructor
  · rintro ⟨⟨b, o⟩, hp, hf⟩
    cases o with
    | none => simp at hf
    | some w =>
      simp only [Option.map_some] at hf
      cases hf
      exact hp
  · intro hm
    exact ⟨(a, some v), hm, rfl⟩

/-- Unfolded membership in the forward-return merge: an output pair comes
from the block of some panel row. -/
theorem forward_merge_mem (df : List FMRow) (q : FMRow × Option ℚ) :
    q ∈ forward_merge df ↔
      ∃ a ∈ df,
        q ∈ (let ms := (df.map (fun x => (x.permno, x.date - 1, x.ret_excess))).filter
              (fun l => l.1 == a.permno && l.2.1 == a.date)
            if ms.isEmpty then [(a, (none : Option ℚ))]
            else ms.map (fun l => (a, some l.2.2))) := by
  unfold forward_merge
  rw [List.mem_flatten]
  constructor
  · rintro ⟨s, hs, hqs⟩
    rcases List.mem_map.mp hs with ⟨a, ha, rfl⟩
    exact ⟨a, ha, hqs⟩
  · rintro ⟨a, ha, hq⟩
    exact ⟨_, List.mem_map_of_mem _ ha, hq⟩

/-- C5: in the assembled panel each security-month row at period `t` carries
as forward excess return the excess return observed for the same security at
`t + 1`; a row with no `t + 1` observation for its security has an undefined
forward return and is dropped by the final `dropna`; and any forward value a
row does carry is the excess return of a `t + 1` observation. -/
theorem C5_forward_return (df : List FMRow) (r : FMRow) (hr : r ∈ df) :
    (∀ x ∈ df, x.permno = r.permno → x.date = r.date + 1 →
        (r, x.ret_excess) ∈ prepare_forward df) ∧
    ((∀ x ∈ df, ¬(x.permno = r.permno ∧ x.date = r.date + 1)) →
        ∀ v, (r, v) ∉ prepare_forward df) ∧
    (∀ v, (r, v) ∈ prepare_forward df →
        ∃ x ∈ df, x.permno = r.permno ∧ x.date = r.date + 1 ∧ x.ret_excess = v) := by
  have hextract : ∀ v, (r, v) ∈ prepare_forward df →
      ∃ x ∈ df, x.permno = r.permno ∧ x.date = r.date + 1 ∧ x.ret_excess = v := by
    intro v hv
    rcases (forward_merge_mem df (r, some v)).mp ((prepare_forward_mem df r v).mp hv)
      with ⟨a, ha, hq⟩
    dsimp only at hq
    by_cases he : ((df.map (fun x => (x.permno, x.date - 1, x.ret_excess))).filter
        (fun l => l.1 == a.permno && l.2.1 == a.date)).isEmpty = true
    · rw [if_pos he] at hq
      rcases List.mem_singleton.mp hq with h
      exact absurd (congrArg Prod.snd h) (by simp)
    · rw [if_neg he] at hq
      rcases List.mem_map.mp hq with ⟨l, hl, hql⟩
      have har : a = r := congrArg Prod.fst hql
      have hlv : some l.2.2 = some v := congrArg Prod.snd hql
      rcases List.mem_filter.mp hl with ⟨hlm, hcond⟩
      rcases List.mem_map.mp hlm with ⟨x, hx, rfl⟩
      simp only [Bool.and_eq_true, beq_iff_eq] at hcond
      refine ⟨x, hx, ?_, ?_, ?_⟩
      · rw [hcond.1, har]
      · have := hcond.2
        rw [har] at this
        omega
      · exact Option.some_injective _ hlv
  refine ⟨?_, ?_, hextract⟩
  · intro x hx hp hd
    apply (prepare_forward_mem df r x.ret_excess).mpr
    apply (forward_merge_mem df (r, some x.ret_excess)).mpr
    refine ⟨r, hr, ?_⟩
    dsimp only
    have hm : (x.permno, x.date - 1, x.ret_excess) ∈
        (df.map (fun y => (y.permno, y.date - 1, y.ret_excess))).filter
          (fun l => l.1 == r.permno && l.2.1 == r.date) := by
      apply List.mem_filter.mpr
      refine ⟨List.mem_map_of_mem _ hx, ?_⟩
      simp only [Bool.and_eq_true, beq_iff_eq]
      exact ⟨hp, by omega⟩
    have hne : ((df.map (fun y => (y.permno, y.date - 1, y.ret_excess))).filter
        (fun l => l.1 == r.permno && l.2.1 == r.date)).isEmpty = false := by
      cases hc : (df.map (fun y => (y.permno, y.date - 1, y.ret_excess))).filter
          (fun l => l.1 == r.permno && l.2.1 == r.date) with
      | nil => rw [hc] at hm; cases hm
      | cons u us => rfl
    rw [if_neg (by simp [hne])]
    exact List.mem_map.mpr ⟨(x.permno, x.date - 1, x.ret_excess), hm, rfl⟩
  · intro hno v hv
    rcases hextract v hv with ⟨x, hx, hp, hd, _⟩
    exact hno x hx ⟨hp, hd⟩

/-- Witness for C5 at the three-month example: the row at period 0 receives
the period-1 excess return, and conjuncts 2 and 3 hold at that row. -/
theorem C5_forward_return_witness :
    (⟨1, 0, 5⟩ : FMRow) ∈ exFwdDf ∧
    ((∀ x ∈ exFwdDf, x.permno = (⟨1, 0, 5⟩ : FMRow).permno →
        x.date = (⟨1, 0, 5⟩ : FMRow).date + 1 →
        ((⟨1, 0, 5⟩ : FMRow), x.ret_excess) ∈ prepare_forward exFwdDf) ∧
     ((∀ x ∈ exFwdDf, ¬(x.permno = (⟨1, 0, 5⟩ : FMRow).permno ∧
          x.date = (⟨1, 0, 5⟩ : FMRow).date + 1)) →
        ∀ v, ((⟨1, 0, 5⟩ : FMRow), v) ∉ prepare_forward exFwdDf) ∧
     (∀ v, ((⟨1, 0, 5⟩ : FMRow), v) ∈ prepare_forward exFwdDf →
        ∃ x ∈ exFwdDf, x.permno = (⟨1, 0, 5⟩ : FMRow).permno ∧
          x.date = (⟨1, 0, 5⟩ : FMRow).date + 1 ∧ x.ret_excess = v)) :=
  ⟨by decide, C5_forward_return exFwdDf ⟨1, 0, 5⟩ (by decide)⟩

/-! ## C6 — Forward fill within each security -/

/-- Position `k` of a forward fill holds the last defined value of the
prefix ending at `k`, seeded with the accumulator. -/
theorem ffillGo_getD {α : Type} (xs : List (Option α)) (acc : Option α) (k : Nat)
    (hk : k < xs.length) :
    (ffillGo acc xs).getD k none = lastD acc (xs.take (k + 1)) := by
  induction xs generalizing acc k with
  | nil => cases hk
  | cons o rest ih =>
    cases o with
    | none =>
      cases k with
      | zero => rfl
      | succ n =>
        have := ih acc n (by simpa using hk)
        simpa [ffillGo, lastD, List.take_succ_cons] using this
    | some v =>
      cases k with
      | zero => rfl
      | succ n =>
        have := ih (some v) n (by simpa using hk)
        simpa [ffillGo, lastD, List.take_succ_cons] using this

/-- A fold over an all-null column leaves the accumulator unchanged. -/
theorem lastD_all_none {α : Type} (l : List (Option α)) (acc : Option α)
    (h : ∀ x ∈ l, x = none) : lastD acc l = acc := by
  induction l generalizing acc with
  | nil => rfl
  | cons o rest ih =>
    have ho := h o (List.mem_cons_self o rest)
    subst ho
    exact ih acc (fun x hx => h x (List.mem_cons_of_mem _ hx))

/-- `lastD` over an append folds left to right. -/
theorem lastD_append {α : Type} (l1 l2 : List (Option α)) (acc : Option α) :
    lastD acc (l1 ++ l2) = lastD (lastD acc l1) l2 := by
  unfold lastD
  exact List.foldl_append _ _ _ _

/-- Carry-forward: if position `i` of a column is defined and positions
`i+1` through `k` are null, the forward fill at `k` holds the value from
`i` unchanged. -/
theorem ffill_col_carry {α : Type} (xs : List (Option α)) (i k : Nat) (v : α)
    (hik : i ≤ k) (hk : k < xs.length) (hi : xs.getD i none = some v)
    (hmid : ∀ j, i < j → j ≤ k → xs.getD j none = none) :
    (ffill_col xs).getD k none = some v := by
  unfold ffill_col
  rw [ffillGo_getD xs none k hk]
  have hsplit : xs.take (k + 1) = xs.take (i + 1) ++ ((xs.drop (i + 1)).take (k - i)) := by
    rw [← List.take_add]
    congr 1
    omega
  have hi' : i < xs.length := by omega
  have htaili : xs.take (i + 1) = xs.take i ++ [some v] := by
    rw [List.getD_eq_getElem?_getD, List.getElem?_eq_getElem hi'] at hi
    simp only [Option.getD_some] at hi
    rw [List.take_succ, List.getElem?_eq_getElem hi', hi]
    rfl
  rw [hsplit, lastD_append, htaili, lastD_append]
  have h2 : lastD (lastD (lastD none (xs.take i)) [some v]) ((xs.drop (i + 1)).take (k - i)) =
      lastD (some v) ((xs.drop (i + 1)).take (k - i)) := rfl
  rw [h2]
  apply lastD_all_none
  intro x hx
  rcases List.mem_iff_getElem.mp hx with ⟨m, hm, hxm⟩
  have hmlen : m < k - i := by
    have := hm
    simp only [List.length_take, List.length_drop] at this
    omega
  have : ((xs.drop (i + 1)).take (k - i))[m] = xs.getD (i + 1 + m) none := by
    rw [List.getElem_take, List.getElem_drop,
      List.getD_eq_getElem?_getD, List.getElem?_eq_getElem (by omega)]
    rfl
  rw [this] at hxm
  rw [← hxm]
  exact hmid (i + 1 + m) (by omega) (by omega)

/-- Leading nulls: if every position up to `k` is null, the forward fill at
`k` is still null. -/
theorem ffill_col_leading {α : Type} (xs : List (Option α)) (k : Nat)
    (hk : k < xs.length) (hall : ∀ j, j ≤ k → xs.getD j none = none) :
    (ffill_col xs).getD k none = none := by
  unfold ffill_col
  rw [ffillGo_getD xs none k hk]
  apply lastD_all_none
  intro x hx
  rcases List.mem_iff_getElem.mp hx with ⟨m, hm, hxm⟩
  have hmlen : m ≤ k := by
    have := hm
    simp only [List.length_take] at this
    omega
  have hmx : m < xs.length := by
    have := hm
    simp only [List.length_take] at this
    omega
  have : (xs.take (k + 1))[m] = xs.getD m none := by
    rw [List.getElem_take, List.getD_eq_getElem?_getD, List.getElem?_eq_getElem hmx]
    rfl
  rw [this] at hxm
  rw [← hxm]
  exact hall m hmlen

/-- Positional reassembly of the four forward-filled columns. -/
theorem ffill_vals_getD (vs : List MergedVals) (k : Nat) (hk : k < vs.length) :
    (ffill_vals vs).getD k noVals =
      ⟨(ffill_col (vs.map (·.log_bm))).getD k none,
       (ffill_col (vs.map (·.op))).getD k none,
       (ffill_col (vs.map (·.inv))).getD k none,
       (ffill_col (vs.map (·.log_mktcap))).getD k none⟩ := by
  simp only [ffill_vals]
  rw [List.getD_eq_getElem?_getD, List.getElem?_map, List.getElem?_range hk]
  rfl

/-- Flattening blocks that are empty except at one key. -/
theorem flatten_if_single {X : Type} (p : Nat) (B : List X) (ks : List Nat)
    (hnd : ks.Nodup) :
    ((ks.map (fun q => if q = p then B else [])).flatten) = if p ∈ ks then B else [] := by
  induction ks with
  | nil => simp
  | cons q ks ih =>
    rcases List.nodup_cons.mp hnd with ⟨hq, hnd2⟩
    rw [List.map_cons, List.flatten_cons, ih hnd2]
    by_cases hqp : q = p
    · subst hqp
      rw [if_pos rfl, if_neg hq, if_pos (List.mem_cons_self q ks), List.append_nil]
    · rw [if_neg hqp]
      by_cases hp : p ∈ ks
      · rw [if_pos hp, if_pos (List.mem_cons_of_mem q hp), List.nil_append]
      · rw [if_neg hp, if_neg (by simp [hqp, hp, Ne.symm hqp]), List.nil_append]

/-- Every row a security contributes to the grouped forward fill comes from
its own group. -/
theorem mem_group_block_key (s : List (CrspMonthly × MergedVals)) (q : Nat)
    {z : CrspMonthly × MergedVals}
    (hz : z ∈ (((s.filter (fun x => x.1.permno == q)).map (·.1)).zip
      (ffill_vals ((s.filter (fun x => x.1.permno == q)).map (·.2))))) :
    z.1.permno = q := by
  have h1 := (List.of_mem_zip hz).1
  rcases List.mem_map.mp h1 with ⟨x, hx, hx1⟩
  rcases List.mem_filter.mp hx with ⟨_, hcond⟩
  rw [← hx1]
  exact Nat.eq_of_beq_eq_true (by simpa using hcond)

/-- The rows of security `p` in the grouped forward fill are exactly `p`'s
own date-sorted rows with `p`'s own columns forward-filled. -/
theorem groupby_ffill_filter (l : List (CrspMonthly × MergedVals)) (p : Nat) :
    (groupby_ffill l).filter (fun x => x.1.permno == p) =
      (((List.insertionSort dpLe l).filter (fun x => x.1.permno == p)).map (·.1)).zip
        (ffill_vals (((List.insertionSort dpLe l).filter (fun x => x.1.permno == p)).map (·.2))) := by
  unfold groupby_ffill
  dsimp only
  rw [List.filter_flatten, List.map_map]
  have hco : ∀ q ∈ sortedPermnos (List.insertionSort dpLe l),
      ((List.filter (fun x => x.1.permno == p) ∘ fun p =>
          ((List.filter (fun x => x.1.permno == p) (List.insertionSort dpLe l)).map (·.1)).zip
            (ffill_vals ((List.filter (fun x => x.1.permno == p)
              (List.insertionSort dpLe l)).map (·.2)))) q) =
        (if q = p then
          ((List.filter (fun x => x.1.permno == p) (List.insertionSort dpLe l)).map (·.1)).zip
            (ffill_vals ((List.filter (fun x => x.1.permno == p)
              (List.insertionSort dpLe l)).map (·.2)))
         else []) := by
    intro q _
    simp only [Function.comp]
    by_cases hqp : q = p
    · subst hqp
      rw [if_pos rfl]
      apply List.filter_eq_self.mpr
      intro z hz
      have := mem_group_block_key (List.insertionSort dpLe l) q hz
      simp [this]
    · rw [if_neg hqp]
      apply List.filter_eq_nil_iff.mpr
      intro z hz
      have := mem_group_block_key (List.insertionSort dpLe l) q hz
      simp [this, hqp]
  rw [List.map_congr_left hco]
  have hnd : (sortedPermnos (List.insertionSort dpLe l)).Nodup := by
    unfold sortedPermnos
    exact (List.perm_insertionSort _ _).nodup_iff.mpr (List.nodup_dedup _)
  rw [flatten_if_single p _ _ hnd]
  by_cases hp : p ∈ sortedPermnos (List.insertionSort dpLe l)
  · rw [if_pos hp]
  · rw [if_neg hp]
    have hfe : (List.insertionSort dpLe l).filter (fun x => x.1.permno == p) = [] := by
      apply List.filter_eq_nil_iff.mpr
      intro x hx hcx
      apply hp
      unfold sortedPermnos
      rw [List.mem_insertionSort, List.mem_dedup]
      exact List.mem_map.mpr ⟨x, hx, Nat.eq_of_beq_eq_true (by simpa using hcx)⟩
    rw [hfe]
    rfl

/-- C6: in the grouped forward-fill step of panel assembly, the rows of each
security are exactly its own date-sorted rows with its own characteristic
columns forward-filled (so values never leak across securities); within a
column, a value defined at position `i` is carried unchanged to every later
position up to the next defined entry, positions before the first defined
entry stay undefined, and the four columns are filled independently and
reassembled positionally. -/
theorem C6_ffill_within_security :
    (∀ (l : List (CrspMonthly × MergedVals)) (p : Nat),
      (groupby_ffill l).filter (fun x => x.1.permno == p) =
        (((List.insertionSort dpLe l).filter (fun x => x.1.permno == p)).map (·.1)).zip
          (ffill_vals (((List.insertionSort dpLe l).filter
            (fun x => x.1.permno == p)).map (·.2)))) ∧
    (∀ (xs : List (Option ℚ)) (i k : Nat) (v : ℚ), i ≤ k → k < xs.length →
      xs.getD i none = some v → (∀ j, i < j → j ≤ k → xs.getD j none = none) →
      (ffill_col xs).getD k none = some v) ∧
    (∀ (xs : List (Option ℚ)) (k : Nat), k < xs.length →
      (∀ j, j ≤ k → xs.getD j none = none) →
      (ffill_col xs).getD k none = none) ∧
    (∀ (vs : List MergedVals) (k : Nat), k < vs.length →
      (ffill_vals vs).getD k noVals =
        ⟨(ffill_col (vs.map (·.log_bm))).getD k none,
         (ffill_col (vs.map (·.op))).getD k none,
         (ffill_col (vs.map (·.inv))).getD k none,
         (ffill_col (vs.map (·.log_mktcap))).getD k none⟩) :=
  ⟨groupby_ffill_filter,
   fun xs i k v a b c d => ffill_col_carry xs i k v a b c d,
   fun xs k a b => ffill_col_leading xs k a b,
   ffill_vals_getD⟩

/-- Witness for C6: with an update at month 3 and no later update, months 4
through 8 carry the month-3 value unchanged. -/
theorem C6_ffill_within_security_witness :
    3 ≤ 8 ∧ 8 < exFfillCol.length ∧ exFfillCol.getD 3 none = some 5 ∧
    (ffill_col exFfillCol).getD 8 none = some 5 :=
  ⟨by decide, by decide, by decide,
    C6_ffill_within_security.2.1 exFfillCol 3 8 5 (by decide) (by decide) (by decide)
      (fun j h1 h2 => by interval_cases j <;> rfl)⟩

/-! ## C7 — Firm-year deduplication -/

/-- Filtering the `tail(1)` survivors by one `(gvkey, year)` key yields the
last frame row of that group. -/
theorem tail_one_filter (l : List CompRow) (g y : Nat) :
    (tail_one l).filter (fun r => r.gvkey == g && r.datadate.y == y) =
      ((l.filter (fun r => r.gvkey == g && r.datadate.y == y)).getLast?).toList := by
  induction l with
  | nil => rfl
  | cons x xs ih =>
    by_cases hany : (xs.any (fun b => x.gvkey == b.gvkey && x.datadate.y == b.datadate.y)) = true
    · rw [tail_one, if_pos hany, List.filter_cons]
      by_cases hpk : (x.gvkey == g && x.datadate.y == y) = true
      · rw [if_pos hpk]
        simp only [Bool.and_eq_true, beq_iff_eq] at hpk
        rcases List.any_eq_true.mp hany with ⟨b, hb, hkb⟩
        simp only [Bool.and_eq_true, beq_iff_eq] at hkb
        have hbpk : (b.gvkey == g && b.datadate.y == y) = true := by
          simp only [Bool.and_eq_true, beq_iff_eq]
          omega
        have hne : xs.filter (fun r => r.gvkey == g && r.datadate.y == y) ≠ [] := by
          intro hnil
          have := List.filter_eq_nil_iff.mp hnil b hb
          exact this hbpk
        rw [ih]
        cases hc : xs.filter (fun r => r.gvkey == g && r.datadate.y == y) with
        | nil => exact absurd hc hne
        | cons u us => rw [List.getLast?_cons_cons]
      · rw [if_neg hpk]
        exact ih
    · rw [tail_one, if_neg hany, List.filter_cons, List.filter_cons]
      by_cases hpk : (x.gvkey == g && x.datadate.y == y) = true
      · rw [if_pos hpk, if_pos hpk]
        simp only [Bool.and_eq_true, beq_iff_eq] at hpk
        have hfe : xs.filter (fun r => r.gvkey == g && r.datadate.y == y) = [] := by
          apply List.filter_eq_nil_iff.mpr
          intro b hb hbpk
          simp only [Bool.and_eq_true, beq_iff_eq] at hbpk
          apply hany
          apply List.any_eq_true.mpr
          refine ⟨b, hb, ?_⟩
          simp only [Bool.and_eq_true, beq_iff_eq]
          omega
        rw [ih, hfe]
        rfl
      · rw [if_neg hpk, if_neg hpk]
        exact ih

/-! ## C10 — Staleness of log market capitalization -/

/-- C10 counterexample: with a fundamentals record at fiscal month 0 and a
six-month lag, the panel row at month 6 feeds `np.log` the market cap of
month 0 (here 1), not the market cap observed at the effective month 6
(here 2); so `log_mktcap` is not derived from the effective month's market
cap. -/
theorem C10_log_mktcap_counterexample :
    ((prepare_characteristics exC10Comp exC10Crsp 6).filter (fun x => x.1.date == 6)).map
        (fun x => x.2.log_mktcap) = [some 1] ∧
    (exC10Crsp.filter (fun r => r.date == 6)).map (·.mktcap) = [2] ∧
    some (1 : ℚ) ≠ some (2 : ℚ) := by
  refine ⟨by decide, by decide, by decide⟩

/-- Value of a position of a mapped range. -/
theorem getD_range_map {X : Type} (f : Nat → X) (n j : Nat) (d : X) (hj : j < n) :
    ((List.range n).map f).getD j d = f j := by
  rw [List.getD_eq_getElem?_getD, List.getElem?_map, List.getElem?_range hj]
  rfl

/-- Filtering a mapped range by a predicate that holds at exactly one index. -/
theorem filter_range_map_single {X : Type} (f : Nat → X) (q : X → Bool) (n mIdx : Nat)
    (hm : mIdx < n) (hq : ∀ t, t < n → q (f t) = (t == mIdx)) :
    ((List.range n).map f).filter q = [f mIdx] := by
  induction n with
  | zero => omega
  | succ n ih =>
    rw [List.range_succ, List.map_append, List.filter_append]
    by_cases hcase : mIdx < n
    · rw [ih hcase (fun t ht => hq t (by omega))]
      have hlast : q (f n) = false := by
        rw [hq n (by omega)]
        simp
        omega
      simp [hlast]
    · have hmn : mIdx = n := by omega
      subst hmn
      have h1 : ((List.range mIdx).map f).filter q = [] := by
        apply List.filter_eq_nil_iff.mpr
        intro x hx
        rcases List.mem_map.mp hx with ⟨t, ht, rfl⟩
        rw [hq t (by
          rcases List.mem_range.mp ht with h
          omega)]
        simp
        exact Nat.ne_of_lt (List.mem_range.mp ht)
      have h2 : q (f mIdx) = true := by
        rw [hq mIdx (by omega)]
        simp
      simp [h1, h2]

/-- Flattening singleton blocks is a map. -/
theorem flatten_map_singleton {X Y : Type} (l : List X) (g : X → Y) :
    (l.map (fun x => [g x])).flatten = l.map g := by
  induction l with
  | nil => rfl
  | cons x t ih => simp [ih]

/-- Equality test of two naturals embedded in the integers. -/
theorem beq_intOfNat (t mIdx : Nat) : (Int.ofNat t == Int.ofNat mIdx) = (t == mIdx) := by
  rw [Bool.eq_iff_iff, beq_iff_eq, beq_iff_eq]
  exact ⟨fun h => Int.ofNat.inj h, fun h => congrArg Int.ofNat h⟩

/-- A replicated list deduplicates to its single value. -/
theorem dedup_replicate_pos (n : Nat) (p : Nat) (h : 0 < n) :
    (List.replicate n p).dedup = [p] := by
  induction n with
  | zero => omega
  | succ n ih =>
    cases n with
    | zero => simp
    | succ n2 =>
      rw [List.replicate_succ, List.dedup_cons_of_mem (by simp), ih (by omega)]

/-- On a one-security panel, the `characteristics` frame of a single
fundamentals record carries the market cap observed at the record's own
fiscal month, stamped with sorting date `fiscal month + lag`. -/
theorem characteristics_oneSec (caps : List ℚ) (p g : Nat) (be op2 inv2 : Option ℚ)
    (m L : Nat) (hm : m < caps.length) :
    ∃ lb : Option ℚ,
      characteristics [⟨g, Int.ofNat m, be, op2, inv2⟩] (oneSecurityCrsp caps p g)
          (Int.ofNat L) =
        [(g, Int.ofNat m + Int.ofNat L, ⟨lb, op2, inv2, some (caps.getD m 0)⟩)] := by
  have hms : ((List.range caps.length).map
        (fun t => (⟨p, some g, Int.ofNat t, caps.getD t 0, 0⟩ : CrspMonthly))).filter
        (fun r => r.gvkey == some g && r.date == Int.ofNat m) =
      [⟨p, some g, Int.ofNat m, caps.getD m 0, 0⟩] := by
    apply filter_range_map_single _ _ _ m hm
    intro t _
    show ((some g == some g) && (Int.ofNat t == Int.ofNat m)) = (t == m)
    rw [beq_intOfNat]
    simp
  refine ⟨(match be, some (caps.getD m 0) with
    | some b, some mv => if 0 < b then some (b / mv) else none
    | _, _ => none), ?_⟩
  unfold characteristics oneSecurityCrsp
  dsimp only
  rw [List.map_cons, List.map_nil, List.flatten, hms]
  simp only [List.isEmpty_cons, List.map_cons, List.map_nil]
  rfl

/-- Merging a single characteristic record into the one-security panel
attaches its payload at exactly the sorting-date month and a null payload
everywhere else. -/
theorem merge_oneSec (caps : List ℚ) (p g : Nat) (m L : Nat) (V : MergedVals) :
    merge_characteristics (oneSecurityCrsp caps p g)
        [(g, Int.ofNat m + Int.ofNat L, V)] =
      (List.range caps.length).map (fun t =>
        ((⟨p, some g, Int.ofNat t, caps.getD t 0, 0⟩ : CrspMonthly),
         if t = m + L then V else noVals)) := by
  unfold merge_characteristics oneSecurityCrsp
  dsimp only
  rw [List.map_map]
  have hblock : ∀ t ∈ List.range caps.length,
      ((fun (r : CrspMonthly) =>
          let ms := [((g, Int.ofNat m + Int.ofNat L, V) : Nat × Int × MergedVals)].filter
            (fun c => some c.1 == r.gvkey && c.2.1 == r.date)
          if ms.isEmpty then [(r, noVals)] else ms.map (fun c => (r, c.2.2))) ∘
        (fun t => (⟨p, some g, Int.ofNat t, caps.getD t 0, 0⟩ : CrspMonthly))) t =
      [((⟨p, some g, Int.ofNat t, caps.getD t 0, 0⟩ : CrspMonthly),
        if t = m + L then V else noVals)] := by
    intro t _
    simp only [Function.comp]
    have hcond : ((some g == some g) && (Int.ofNat m + Int.ofNat L == Int.ofNat t)) =
        (m + L == t) := by
      have : Int.ofNat m + Int.ofNat L = Int.ofNat (m + L) := by
        simp [Int.ofNat_add]
      rw [this, beq_intOfNat]
      simp
    rw [List.filter_cons, List.filter_nil]
    by_cases hteq : t = m + L
    · subst hteq
      rw [hcond]
      simp
    · rw [hcond]
      have : (m + L == t) = false := by
        simp
        omega
      rw [this]
      simp [Ne.symm, hteq]
  rw [List.map_congr_left hblock, flatten_map_singleton]

/-- C10 as amended: on a one-security panel, the `log_mktcap` argument of a
panel month `k` is the market cap observed at the fundamentals record's own
fiscal month `m` — not the market cap of `k` or of the effective month — 
attached at the effective month `m + lag` and forward-filled to all later
months; months before the effective month carry no value. -/
theorem C10_log_mktcap_stale (caps : List ℚ) (p g : Nat) (be op2 inv2 : Option ℚ)
    (m L k : Nat) (hm : m < caps.length) (hk : k < caps.length) :
    ((prepare_characteristics [⟨g, Int.ofNat m, be, op2, inv2⟩]
        (oneSecurityCrsp caps p g) (Int.ofNat L)).map
      (fun x => (x.1.date, x.2.log_mktcap))).getD k (0, none) =
    (Int.ofNat k, if m + L ≤ k then some (caps.getD m 0) else none) := by
  obtain ⟨lb, hchars⟩ := characteristics_oneSec caps p g be op2 inv2 m L hm
  unfold prepare_characteristics
  rw [hchars, merge_oneSec caps p g m L ⟨lb, op2, inv2, some (caps.getD m 0)⟩]
  have hnpos : 0 < caps.length := by omega
  have hsorted : List.Sorted dpLe ((List.range caps.length).map (fun t =>
      ((⟨p, some g, Int.ofNat t, caps.getD t 0, 0⟩ : CrspMonthly),
       if t = m + L then (⟨lb, op2, inv2, some (caps.getD m 0)⟩ : MergedVals)
       else noVals))) := by
    rw [List.Sorted, List.pairwise_map]
    apply (List.pairwise_lt_range caps.length).imp
    intro a b hab
    exact Or.inl (Int.ofNat_lt.mpr hab)
  unfold groupby_ffill
  dsimp only
  rw [List.Sorted.insertionSort_eq hsorted]
  have hperm : sortedPermnos ((List.range caps.length).map (fun t =>
      ((⟨p, some g, Int.ofNat t, caps.getD t 0, 0⟩ : CrspMonthly),
       if t = m + L then (⟨lb, op2, inv2, some (caps.getD m 0)⟩ : MergedVals)
       else noVals))) = [p] := by
    unfold sortedPermnos
    rw [List.map_map]
    have hconst : ((fun (x : CrspMonthly × MergedVals) => x.1.permno) ∘ (fun t =>
        ((⟨p, some g, Int.ofNat t, caps.getD t 0, 0⟩ : CrspMonthly),
         if t = m + L then (⟨lb, op2, inv2, some (caps.getD m 0)⟩ : MergedVals)
         else noVals))) = fun _ => p := by
      funext t
      by_cases h : t = m + L <;> simp [h, Function.comp]
    rw [hconst, List.map_const', List.length_range, dedup_replicate_pos _ _ hnpos]
    rfl
  rw [hperm, List.map_cons, List.map_nil, List.flatten_cons, List.flatten_nil,
    List.append_nil]
  have hfilter : ((List.range caps.length).map (fun t =>
      ((⟨p, some g, Int.ofNat t, caps.getD t 0, 0⟩ : CrspMonthly),
       if t = m + L then (⟨lb, op2, inv2, some (caps.getD m 0)⟩ : MergedVals)
       else noVals))).filter (fun x => x.1.permno == p) =
      (List.range caps.length).map (fun t =>
      ((⟨p, some g, Int.ofNat t, caps.getD t 0, 0⟩ : CrspMonthly),
       if t = m + L then (⟨lb, op2, inv2, some (caps.getD m 0)⟩ : MergedVals)
       else noVals)) := by
    apply List.filter_eq_self.mpr
    intro z hz
    rcases List.mem_map.mp hz with ⟨t, _, rfl⟩
    by_cases h : t = m + L <;> simp [h]
  rw [hfilter, List.map_map, List.map_map]
  have hfst : ((fun (x : CrspMonthly × MergedVals) => x.1) ∘ (fun t =>
      ((⟨p, some g, Int.ofNat t, caps.getD t 0, 0⟩ : CrspMonthly),
       if t = m + L then (⟨lb, op2, inv2, some (caps.getD m 0)⟩ : MergedVals)
       else noVals))) = fun t => (⟨p, some g, Int.ofNat t, caps.getD t 0, 0⟩ : CrspMonthly) := by
    funext t
    by_cases h : t = m + L <;> simp [h, Function.comp]
  have hsnd : ((fun (x : CrspMonthly × MergedVals) => x.2) ∘ (fun t =>
      ((⟨p, some g, Int.ofNat t, caps.getD t 0, 0⟩ : CrspMonthly),
       if t = m + L then (⟨lb, op2, inv2, some (caps.getD m 0)⟩ : MergedVals)
       else noVals))) = fun t =>
      (if t = m + L then (⟨lb, op2, inv2, some (caps.getD m 0)⟩ : MergedVals)
       else noVals) := by
    funext t
    by_cases h : t = m + L <;> simp [h, Function.comp]
  rw [hfst, hsnd]
  have hflen : (ffill_vals ((List.range caps.length).map (fun t =>
      (if t = m + L then (⟨lb, op2, inv2, some (caps.getD m 0)⟩ : MergedVals)
       else noVals)))).length = caps.length := by
    simp [ffill_vals]
  have hziplen : k < (((List.range caps.length).map (fun t =>
        (⟨p, some g, Int.ofNat t, caps.getD t 0, 0⟩ : CrspMonthly))).zip
      (ffill_vals ((List.range caps.length).map (fun t =>
        (if t = m + L then (⟨lb, op2, inv2, some (caps.getD m 0)⟩ : MergedVals)
         else noVals))))).length := by
    rw [List.length_zip, List.length_map, List.length_range, hflen]
    omega
  rw [List.getD_eq_getElem?_getD, List.getElem?_map,
    List.getElem?_eq_getElem hziplen]
  simp only [Option.map_some', Option.getD_some]
  rw [List.getElem_zip]
  have hvalsk : (ffill_col (((List.range caps.length).map (fun t =>
      (if t = m + L then (⟨lb, op2, inv2, some (caps.getD m 0)⟩ : MergedVals)
       else noVals))).map (fun v => v.log_mktcap))).getD k none =
      (if m + L ≤ k then some (caps.getD m 0) else none) := by
    have hcol : ((List.range caps.length).map (fun t =>
        (if t = m + L then (⟨lb, op2, inv2, some (caps.getD m 0)⟩ : MergedVals)
         else noVals))).map (fun v => v.log_mktcap) =
        (List.range caps.length).map (fun t =>
          (if t = m + L then some (caps.getD m 0) else none)) := by
      rw [List.map_map]
      apply List.map_congr_left
      intro t _
      by_cases h : t = m + L <;> simp [h, Function.comp, noVals]
    rw [hcol]
    by_cases hcase : m + L ≤ k
    · rw [if_pos hcase]
      apply ffill_col_carry _ (m + L) k _ hcase
        (by rw [List.length_map, List.length_range]; omega)
      · rw [getD_range_map _ _ _ _ (by omega), if_pos rfl]
      · intro j hj1 hj2
        rw [getD_range_map _ _ _ _ (by omega), if_neg (by omega)]
    · rw [if_neg hcase]
      apply ffill_col_leading _ k (by rw [List.length_map, List.length_range]; omega)
      intro j hj
      rw [getD_range_map _ _ _ _ (by omega), if_neg (by omega)]
  rw [List.getElem_map, List.getElem_range,
    ← List.getD_eq_getElem _ noVals (by rw [hflen]; omega),
    ffill_vals_getD _ k (by rw [List.length_map, List.length_range]; omega)]
  dsimp only
  rw [hvalsk]

/-- Witness for C10 as amended, at a seven-month single-security panel. -/
theorem C10_log_mktcap_stale_witness :
    0 < ([1, 2, 2, 2, 2, 2, 2] : List ℚ).length ∧
    6 < ([1, 2, 2, 2, 2, 2, 2] : List ℚ).length ∧
    ((prepare_characteristics [⟨3, Int.ofNat 0, none, some 5, some 9⟩]
        (oneSecurityCrsp [1, 2, 2, 2, 2, 2, 2] 7 3) (Int.ofNat 6)).map
      (fun x => (x.1.date, x.2.log_mktcap))).getD 6 (0, none) =
    (Int.ofNat 6, if 0 + 6 ≤ 6 then some (([1, 2, 2, 2, 2, 2, 2] : List ℚ).getD 0 0) else none) :=
  ⟨by decide, by decide,
    C10_log_mktcap_stale [1, 2, 2, 2, 2, 2, 2] 7 3 none (some 5) (some 9) 0 6 6
      (by decide) (by decide)⟩

/-! ## C7 — Firm-year deduplication (continued) -/

/-- The date order is reflexive. -/
theorem pdle_refl (a : PyDate) : pdle a a := by
  unfold pdle
  omega

/-- Two dates below each other are equal. -/
theorem pdle_antisymm (a b : PyDate) (h1 : pdle a b) (h2 : pdle b a) : a = b := by
  cases a
  cases b
  unfold pdle at h1 h2
  dsimp only at h1 h2
  simp only [PyDate.mk.injEq]
  omega

/-- A defined last element is a member. -/
theorem mem_of_getLast_eq_some {α : Type} (l : List α) (r : α)
    (h : l.getLast? = some r) : r ∈ l := by
  cases l with
  | nil => cases h
  | cons a t =>
    rw [List.getLast?_eq_getLast (a :: t) (by simp)] at h
    rw [← Option.some.inj h]
    exact List.getLast_mem _

/-- A nonempty list has a defined last element. -/
theorem getLast_some_of_cons {α : Type} (a : α) (t : List α) :
    ∃ v, (a :: t).getLast? = some v :=
  ⟨(a :: t).getLast (by simp), List.getLast?_eq_getLast (a :: t) (by simp)⟩

/-- In a date-sorted frame, every row's date is bounded by the last row's. -/
theorem sorted_getLast_max (l : List CompRow) (hs : List.Sorted rowLe l)
    (x : CompRow) (hx : x ∈ l) (r : CompRow) (hr : l.getLast? = some r) :
    pdle x.datadate r.datadate := by
  induction l with
  | nil => cases hx
  | cons a t ih =>
    rcases List.pairwise_cons.mp hs with ⟨ha, ht⟩
    cases t with
    | nil =>
      have hra : r = a := by
        have : (some a : Option CompRow) = some r := hr
        exact (Option.some.inj this).symm
      rcases List.mem_singleton.mp hx with rfl
      rw [hra]
      exact pdle_refl _
    | cons b t2 =>
      rw [List.getLast?_cons_cons] at hr
      rcases List.mem_cons.mp hx with rfl | hxt
      · have hrin : r ∈ b :: t2 := mem_of_getLast_eq_some _ _ hr
        exact ha r hrin
      · exact ih ht hxt hr

/-- C7 counterexample: two records of one entity and year share a fiscal
date.  `[exTieB, exTieA]` is an admissible output of the unstable
`sort_values("datadate")` on the fetch order `[exTieA, exTieB]` — it is a
permutation and non-decreasing in the tied date — and under it the
deduplication keeps `exTieA`, the record occurring FIRST in fetch order; so
the program does not guarantee the claimed last-in-fetch-order tie-break. -/
theorem C7_dedup_counterexample :
    sort_values_datadate [exTieA, exTieB] [exTieB, exTieA] ∧
    dedup_firm_years_from [exTieB, exTieA] = [exTieA] ∧
    exTieA ≠ exTieB := by
  refine ⟨⟨List.Perm.swap _ _ _, by decide⟩, by decide, by decide⟩

/-- C7 as amended: under every admissible output of the unstable sort, the
deduplication keeps in each `(entity, calendar year)` group exactly one
record of the input, and that record carries the latest fiscal date of the
group; when a unique record attains that latest fiscal date — as in the
June/December 2020 example — exactly that record is kept; which record is
kept when fiscal dates tie is not determined by the program. -/
theorem C7_dedup_group_max (df s : List CompRow) (g y : Nat)
    (hs : sort_values_datadate df s) :
    (∀ r ∈ (dedup_firm_years_from s).filter
        (fun x => x.gvkey == g && x.datadate.y == y),
      r ∈ df ∧ (r.gvkey == g && r.datadate.y == y) = true ∧
        ∀ x ∈ df, (x.gvkey == g && x.datadate.y == y) = true →
          pdle x.datadate r.datadate) ∧
    ((dedup_firm_years_from s).filter
        (fun x => x.gvkey == g && x.datadate.y == y)).length =
      (if (df.filter (fun x => x.gvkey == g && x.datadate.y == y)).isEmpty
       then 0 else 1) ∧
    (∀ u ∈ df, (u.gvkey == g && u.datadate.y == y) = true →
      (∀ x ∈ df, (x.gvkey == g && x.datadate.y == y) = true → x ≠ u →
        pdle x.datadate u.datadate ∧ x.datadate ≠ u.datadate) →
      (dedup_firm_years_from s).filter
        (fun x => x.gvkey == g && x.datadate.y == y) = [u]) := by
  obtain ⟨hperm, hsort⟩ := hs
  have hpf : List.Perm (s.filter (fun x => x.gvkey == g && x.datadate.y == y))
      (df.filter (fun x => x.gvkey == g && x.datadate.y == y)) :=
    hperm.filter _
  have hsf : List.Sorted rowLe (s.filter (fun x => x.gvkey == g && x.datadate.y == y)) :=
    List.Pairwise.sublist (List.filter_sublist s) hsort
  have hkey : (dedup_firm_years_from s).filter
      (fun x => x.gvkey == g && x.datadate.y == y) =
      ((s.filter (fun x => x.gvkey == g && x.datadate.y == y)).getLast?).toList :=
    tail_one_filter s g y
  refine ⟨?_, ?_, ?_⟩
  · intro r hr
    rw [hkey] at hr
    have hgl : (s.filter (fun x => x.gvkey == g && x.datadate.y == y)).getLast? =
        some r := by
      cases hc : (s.filter (fun x => x.gvkey == g && x.datadate.y == y)).getLast? with
      | none => rw [hc] at hr; cases hr
      | some a =>
        rw [hc] at hr
        rcases List.mem_singleton.mp hr with rfl
        rfl
    have hrS : r ∈ s.filter (fun x => x.gvkey == g && x.datadate.y == y) :=
      mem_of_getLast_eq_some _ _ hgl
    rcases List.mem_filter.mp hrS with ⟨hrs, hrk⟩
    refine ⟨hperm.mem_iff.mp hrs, hrk, ?_⟩
    intro x hx hxk
    have hxS : x ∈ s.filter (fun b => b.gvkey == g && b.datadate.y == y) :=
      hpf.mem_iff.mpr (List.mem_filter.mpr ⟨hx, hxk⟩)
    exact sorted_getLast_max _ hsf x hxS r hgl
  · rw [hkey]
    cases hc : s.filter (fun x => x.gvkey == g && x.datadate.y == y) with
    | nil =>
      have hdfe : df.filter (fun x => x.gvkey == g && x.datadate.y == y) = [] := by
        rw [hc] at hpf
        exact (hpf.symm).eq_nil
      rw [hdfe]
      rfl
    | cons a t =>
      obtain ⟨v, hv⟩ := getLast_some_of_cons a t
      rw [hv]
      have hne : (df.filter (fun x => x.gvkey == g && x.datadate.y == y)).isEmpty = false := by
        rw [hc] at hpf
        cases hd : df.filter (fun x => x.gvkey == g && x.datadate.y == y) with
        | nil =>
          rw [hd] at hpf
          have := hpf.length_eq
          simp at this
        | cons b u => rfl
      rw [hne]
      rfl
  · intro u hu huk hstrict
    rw [hkey]
    have huS : u ∈ s.filter (fun x => x.gvkey == g && x.datadate.y == y) :=
      hpf.mem_iff.mpr (List.mem_filter.mpr ⟨hu, huk⟩)
    cases hc : s.filter (fun x => x.gvkey == g && x.datadate.y == y) with
    | nil => rw [hc] at huS; cases huS
    | cons a t =>
      obtain ⟨v, hv⟩ := getLast_some_of_cons a t
      have hglv : (s.filter (fun x => x.gvkey == g && x.datadate.y == y)).getLast? =
          some v := by rw [hc]; exact hv
      have hvS : v ∈ s.filter (fun x => x.gvkey == g && x.datadate.y == y) :=
        mem_of_getLast_eq_some _ _ hglv
      rcases List.mem_filter.mp hvS with ⟨hvs, hvk⟩
      have hvdf : v ∈ df := hperm.mem_iff.mp hvs
      by_cases hvu : v = u
      · rw [hv, hvu]
        rfl
      · have h1 := hstrict v hvdf hvk hvu
        rw [hc] at huS
        have h2 : pdle u.datadate v.datadate := by
          have := sorted_getLast_max _ hsf u (by rw [hc]; exact huS) v hglv
          exact this
        exact absurd (pdle_antisymm _ _ h1.1 h2) h1.2

/-- Witness for C7 as amended: the June/December 2020 example has a unique
latest fiscal date, so only the December record survives. -/
theorem C7_dedup_group_max_witness :
    sort_values_datadate [exJuneRec, exDecRec] [exJuneRec, exDecRec] ∧
    (dedup_firm_years_from [exJuneRec, exDecRec]).filter
      (fun x => x.gvkey == 7 && x.datadate.y == 2020) = [exDecRec] :=
  ⟨⟨List.Perm.refl _, by decide⟩,
   (C7_dedup_group_max [exJuneRec, exDecRec] [exJuneRec, exDecRec] 7 2020
      ⟨List.Perm.refl _, by decide⟩).2.2 exDecRec (by decide) (by decide) (by decide)⟩
